import Mathlib

/-
  Shallow embedding of the lodetrick/raytracing-rust renderer.

  Floating-point numbers are modelled as real numbers; the f64 value
  INFINITY (used as the upper end of the ray-time interval in
  Camera::ray_color) is modelled by the top element of EReal.  The
  pseudo-random source is modelled as oracle streams of values together
  with cursors, matching the sequence of draws the code performs.
  Every definition is translated directly from the Rust source
  (src/raycasting.rs, src/materials.rs, src/rand_util.rs, src/camera.rs).
-/

namespace RT

/-! ### Stripe partition arithmetic (Camera::render_parallel, camera.rs) -/

/-- Stripe width: `let step = iw / 10;` (u32 integer division). -/
def stripeStep (w : ℕ) : ℕ := w / 10

/-- Column x belongs to stripe i: the worker for stripe i runs
`for x in curr..next` with `curr = i * step` and `next = (i+1) * step`. -/
def inStripe (w i x : ℕ) : Prop :=
  i * stripeStep w ≤ x ∧ x < (i + 1) * stripeStep w

instance (w i x : ℕ) : Decidable (inStripe w i x) :=
  inferInstanceAs (Decidable (_ ∧ _))

/-- Column x is rendered by some of the 10 spawned workers (`for i in 0..10`). -/
def coveredByStripes (w x : ℕ) : Prop := ∃ i, i < 10 ∧ inStripe w i x

instance (w x : ℕ) : Decidable (coveredByStripes w x) :=
  inferInstanceAs (Decidable (∃ j, j < 10 ∧ inStripe w j x))

noncomputable section

/-! ### Vector arithmetic (cgmath::Vector3 of f64, as used by the source) -/

@[ext]
structure Vec3 where
  x : ℝ
  y : ℝ
  z : ℝ

namespace Vec3

def add (a b : Vec3) : Vec3 := ⟨a.x + b.x, a.y + b.y, a.z + b.z⟩

def sub (a b : Vec3) : Vec3 := ⟨a.x - b.x, a.y - b.y, a.z - b.z⟩

def neg (a : Vec3) : Vec3 := ⟨-a.x, -a.y, -a.z⟩

def smul (t : ℝ) (a : Vec3) : Vec3 := ⟨t * a.x, t * a.y, t * a.z⟩

/-- Component-wise division by a scalar (cgmath `v / t`). -/
def sdiv (a : Vec3) (t : ℝ) : Vec3 := ⟨a.x / t, a.y / t, a.z / t⟩

/-- Element-wise product (cgmath `mul_element_wise`). -/
def mulE (a b : Vec3) : Vec3 := ⟨a.x * b.x, a.y * b.y, a.z * b.z⟩

instance : Add Vec3 := ⟨add⟩
instance : Sub Vec3 := ⟨sub⟩
instance : Neg Vec3 := ⟨neg⟩
instance : SMul ℝ Vec3 := ⟨smul⟩

/-- cgmath `dot`. -/
def dot (a b : Vec3) : ℝ := a.x * b.x + a.y * b.y + a.z * b.z

/-- cgmath `magnitude2` (squared length). -/
def magnitude2 (a : Vec3) : ℝ := dot a a

/-- cgmath `magnitude`. -/
def magnitude (a : Vec3) : ℝ := Real.sqrt (magnitude2 a)

/-- cgmath `normalize`: the vector scaled by the reciprocal of its length. -/
def normalize (a : Vec3) : Vec3 := (1 / magnitude a) • a

end Vec3

export Vec3 (dot)

/-! ### Ray (raycasting.rs) -/

structure Ray where
  orig : Vec3
  dir : Vec3

/-- `Ray::at`: `self.orig + self.dir * t`. -/
def Ray.at (r : Ray) (t : ℝ) : Vec3 := r.orig + t • r.dir

/-! ### Materials as a closed variant type (materials.rs) -/

inductive Material where
  | lambertian (albedo : Vec3)
  | metal (albedo : Vec3) (fuzz : ℝ)
  | dielectric (refractive_index : ℝ)

/-- `Metal::new`: `fuzz: if fuzz < 1.0 {fuzz} else {1.0}`. -/
def Metal.new (albedo : Vec3) (fuzz : ℝ) : Material :=
  .metal albedo (if fuzz < 1 then fuzz else 1)

/-- The fuzz factor stored in a material (0 for non-metals). -/
def Material.fuzzOf : Material → ℝ
  | .metal _ f => f
  | _ => 0

/-! ### Intersection record and time interval (raycasting.rs) -/

structure Intersection where
  time : ℝ
  position : Vec3
  norm : Vec3
  mat : Material
  front_face : Bool

/-- `Intersection::new`. -/
def Intersection.new : Intersection :=
  { time := 0
    position := ⟨0, 0, 0⟩
    norm := ⟨0, 0, 0⟩
    mat := Metal.new ⟨0, 0, 0⟩ 0
    front_face := false }

/-- `Range<f64>`; `stop` models `end` and may be the f64 INFINITY (⊤). -/
structure TRange where
  start : ℝ
  stop : EReal

/-- `Intersection::set_face_normal`: sets `front_face = dot(r.dir, outward) < 0`
and negates the stored normal when the face is a back face.  At its only call
site the record's normal has just been set to the outward normal. -/
def Intersection.set_face_normal (rec : Intersection) (r : Ray)
    (outward_norm : Vec3) : Intersection :=
  if dot r.dir outward_norm < 0 then
    { rec with front_face := true }
  else
    { rec with front_face := false, norm := -outward_norm }

/-! ### Sphere and intersection routine (raycasting.rs) -/

structure Sphere where
  center : Vec3
  radius : ℝ
  mat : Material

/-- `Sphere::hit`, in state-passing form: returns the bool result together
with the (possibly updated) intersection record. -/
def Sphere.hit (s : Sphere) (r : Ray) (t_range : TRange)
    (intersection : Intersection) : Bool × Intersection :=
  let oc := s.center - r.orig
  let a := dot r.dir r.dir
  let h := dot r.dir oc
  let c := dot oc oc - s.radius * s.radius
  let discriminant := h * h - a * c
  if discriminant < 0 then
    (false, intersection)
  else
    let sqrtd := Real.sqrt discriminant
    let time₁ := (h - sqrtd) / a
    if time₁ ≤ t_range.start ∨ (time₁ : EReal) ≥ t_range.stop then
      let time₂ := (h + sqrtd) / a
      if time₂ ≤ t_range.start ∨ (time₂ : EReal) ≥ t_range.stop then
        (false, intersection)
      else
        let position := r.at time₂
        let rec₁ : Intersection :=
          { intersection with
              time := time₂, position := position,
              norm := (position - s.center).sdiv s.radius, mat := s.mat }
        (true, rec₁.set_face_normal r rec₁.norm)
    else
      let position := r.at time₁
      let rec₁ : Intersection :=
        { intersection with
            time := time₁, position := position,
            norm := (position - s.center).sdiv s.radius, mat := s.mat }
      (true, rec₁.set_face_normal r rec₁.norm)

/-- `<HittableList as Hittable>::hit`: iterate the children (the program only
ever stores spheres in a HittableList), shrinking the upper end of the valid
interval to each hit's time; returns whether anything hit, with the record. -/
def hitList : List Sphere → Ray → TRange → Intersection → Bool × Intersection
  | [], _, _, intersection => (false, intersection)
  | o :: rest, r, range, intersection =>
    let res := o.hit r range intersection
    if res.1 then
      (true, (hitList rest r ⟨range.start, (res.2.time : EReal)⟩ res.2).2)
    else
      hitList rest r range res.2

/-! ### Random source (rand_util.rs), modelled as oracle streams -/

/-- The per-thread random generator.  The successive results of
`random_unit_vec` and `random_double` are modelled as oracle streams read
through cursors, so a scatter call records exactly which draws it consumed. -/
structure Rand where
  unit_vecs : ℕ → Vec3
  doubles : ℕ → ℝ
  uidx : ℕ
  didx : ℕ

/-- `Rand::random_unit_vec` at the call sites in materials.rs: the next
unit-vector draw. -/
def Rand.random_unit_vec (g : Rand) : Vec3 × Rand :=
  (g.unit_vecs g.uidx, { g with uidx := g.uidx + 1 })

/-- `Rand::random_double`: the next uniform draw in [0,1). -/
def Rand.random_double (g : Rand) : ℝ × Rand :=
  (g.doubles g.didx, { g with didx := g.didx + 1 })

/-- One candidate of `Rand::random_unit_vec`'s rejection loop:
`r = self.random_vec() * 2.0 - Vec3::new(1.0,1.0,1.0)` built from three
uniform draws u, v, w in [0,1). -/
def ruvCandidate (u v w : ℝ) : Vec3 := ⟨2 * u - 1, 2 * v - 1, 2 * w - 1⟩

/-- The loop body of `Rand::random_unit_vec`: accept the candidate exactly
when `r.magnitude2() < 1.0`, returning `r.normalize()`; otherwise draw again. -/
def ruvStep (r : Vec3) : Option Vec3 :=
  if r.magnitude2 < 1 then some r.normalize else none

/-! ### Material scattering (materials.rs) -/

/-- `reflect`: `vec - 2.0 * dot(*vec, *norm) * norm`. -/
def reflect (vec norm : Vec3) : Vec3 := vec - (2 * dot vec norm) • norm

/-- `refract`: Snell refraction split into perpendicular and parallel parts. -/
def refract (vec norm : Vec3) (etai_over_etat : ℝ) : Vec3 :=
  let cos_theta := min 1 (dot (-vec) norm)
  let r_out_perp := etai_over_etat • (vec + cos_theta • norm)
  let r_out_parallel :=
    (-Real.sqrt |1 - r_out_perp.magnitude2|) • norm
  r_out_parallel + r_out_perp

/-- `vec_near_zero`: all three components below 1e-8 in magnitude. -/
def vec_near_zero (vec : Vec3) : Prop :=
  |vec.x| < 1e-8 ∧ |vec.y| < 1e-8 ∧ |vec.z| < 1e-8

instance (vec : Vec3) : Decidable (vec_near_zero vec) :=
  inferInstanceAs (Decidable (_ ∧ _ ∧ _))

/-- `Dielectric::reflectance`: Schlick's approximation. -/
def reflectance (cos refractive_index : ℝ) : ℝ :=
  let r₀ := (1 - refractive_index) / (1 + refractive_index)
  let r₀ := r₀ * r₀
  r₀ + (1 - r₀) * (1 - cos) ^ 5

/-- `Material::scatter` for the three variants.  Returns the optional
scattered ray and attenuation, together with the advanced generator.
The Rust `||` is short-circuiting, so the dielectric only consumes a
uniform draw when total internal reflection does not already apply. -/
def Material.scatter (m : Material) (r_in : Ray) (rec : Intersection)
    (g : Rand) : Option (Ray × Vec3) × Rand :=
  match m with
  | .lambertian albedo =>
    let (u, g₁) := g.random_unit_vec
    let scatter_direction := rec.norm + u
    let scatter_direction :=
      if vec_near_zero scatter_direction then rec.norm else scatter_direction
    (some (⟨rec.position, scatter_direction⟩, albedo), g₁)
  | .metal albedo fuzz =>
    let (u, g₁) := g.random_unit_vec
    let reflected := (reflect r_in.dir rec.norm).normalize + fuzz • u
    if dot reflected rec.norm ≤ 0 then (none, g₁)
    else (some (⟨rec.position, reflected⟩, albedo), g₁)
  | .dielectric refractive_index =>
    let ri := if rec.front_face then 1 / refractive_index else refractive_index
    let unit_direction := r_in.dir.normalize
    let cos_theta := min (dot (-unit_direction) rec.norm) 1
    let sin_theta := Real.sqrt (1 - cos_theta ^ 2)
    if ri * sin_theta > 1 then
      (some (⟨rec.position, reflect unit_direction rec.norm⟩, ⟨1, 1, 1⟩), g)
    else
      let (d, g₁) := g.random_double
      if reflectance cos_theta ri > d then
        (some (⟨rec.position, reflect unit_direction rec.norm⟩, ⟨1, 1, 1⟩), g₁)
      else
        (some (⟨rec.position, refract r_in.dir.normalize rec.norm ri⟩,
           ⟨1, 1, 1⟩), g₁)

/-! ### Recursive shading (Camera::ray_color, camera.rs) -/

/-- `Camera::ray_color`.  Depth is a u32, so `depth <= 0` means `depth = 0`.
The scene query uses the interval `0.001..INFINITY`. -/
def rayColor (r : Ray) (depth : ℕ) (world : List Sphere) (g : Rand) :
    Vec3 × Rand :=
  match depth with
  | 0 => (⟨0, 0, 0⟩, g)
  | d + 1 =>
    let res := hitList world r ⟨0.001, (⊤ : EReal)⟩ Intersection.new
    if res.1 then
      match res.2.mat.scatter r res.2 g with
      | (some (scattered, attenuation), g₁) =>
        let (c, g₂) := rayColor scattered d world g₁
        (attenuation.mulE c, g₂)
      | (none, g₁) => (⟨0, 0, 0⟩, g₁)
    else
      let unit := r.dir.normalize
      let alpha := 0.5 * (unit.y + 1)
      ((1 - alpha) • (⟨1, 1, 1⟩ : Vec3) + alpha • (⟨0.5, 0.7, 1.0⟩ : Vec3), g)

end

/-- A time lies strictly inside the valid open interval; `Sphere::hit`
rejects a root exactly when `time <= t_range.start || time >= t_range.end`,
i.e. when this fails. -/
def TRange.insideOpen (t : TRange) (x : ℝ) : Prop :=
  t.start < x ∧ (x : EReal) < t.stop

/-! ### Helper lemmas -/

@[simp] theorem Vec3.add_def (a b : Vec3) :
    a + b = ⟨a.x + b.x, a.y + b.y, a.z + b.z⟩ := rfl

@[simp] theorem Vec3.sub_def (a b : Vec3) :
    a - b = ⟨a.x - b.x, a.y - b.y, a.z - b.z⟩ := rfl

@[simp] theorem Vec3.neg_def (a : Vec3) : -a = ⟨-a.x, -a.y, -a.z⟩ := rfl

@[simp] theorem Vec3.smul_def (t : ℝ) (a : Vec3) :
    t • a = ⟨t * a.x, t * a.y, t * a.z⟩ := rfl

theorem Vec3.dot_neg_right (a b : Vec3) : dot a (-b) = -dot a b := by
  simp only [Vec3.dot, Vec3.neg_def]
  ring

theorem Vec3.dot_neg_left (a b : Vec3) : dot (-a) b = -dot a b := by
  simp only [Vec3.dot, Vec3.neg_def]
  ring

theorem Vec3.dot_smul_left (t : ℝ) (a b : Vec3) :
    dot (t • a) b = t * dot a b := by
  simp only [Vec3.dot, Vec3.smul_def]
  ring

theorem Vec3.magnitude2_nonneg (a : Vec3) : 0 ≤ Vec3.magnitude2 a := by
  unfold Vec3.magnitude2 Vec3.dot
  nlinarith [sq_nonneg a.x, sq_nonneg a.y, sq_nonneg a.z]

theorem ereal_one_ne_top : (1 : EReal) ≠ ⊤ := by
  rw [← EReal.coe_one]
  exact EReal.coe_ne_top 1

theorem Vec3.magnitude2_smul (t : ℝ) (a : Vec3) :
    Vec3.magnitude2 (t • a) = t ^ 2 * Vec3.magnitude2 a := by
  simp only [Vec3.magnitude2, Vec3.dot, Vec3.smul_def]
  ring

theorem Vec3.magnitude2_add_smul (u n : Vec3) (c : ℝ) :
    Vec3.magnitude2 (u + c • n) =
      Vec3.magnitude2 u + 2 * c * dot u n + c ^ 2 * Vec3.magnitude2 n := by
  simp only [Vec3.magnitude2, Vec3.dot, Vec3.smul_def, Vec3.add_def]
  ring

theorem Vec3.magnitude2_neg (a : Vec3) :
    Vec3.magnitude2 (-a) = Vec3.magnitude2 a := by
  simp only [Vec3.magnitude2, Vec3.dot, Vec3.neg_def]
  ring

theorem Vec3.one_smul_self (a : Vec3) : (1 : ℝ) • a = a := by
  ext <;> simp

theorem Vec3.dot_sq_le (a b : Vec3) :
    (dot a b) ^ 2 ≤ Vec3.magnitude2 a * Vec3.magnitude2 b := by
  unfold Vec3.magnitude2 Vec3.dot
  nlinarith [sq_nonneg (a.x * b.y - a.y * b.x), sq_nonneg (a.x * b.z - a.z * b.x),
    sq_nonneg (a.y * b.z - a.z * b.y)]

theorem Vec3.magnitude2_normalize (a : Vec3) (h : 0 < Vec3.magnitude2 a) :
    Vec3.magnitude2 (Vec3.normalize a) = 1 := by
  unfold Vec3.normalize
  rw [Vec3.magnitude2_smul]
  unfold Vec3.magnitude
  rw [div_pow, one_pow, Real.sq_sqrt (Vec3.magnitude2_nonneg a)]
  exact one_div_mul_cancel (ne_of_gt h)

/-- A miss leaves the record exactly as it was (all early returns of
`Sphere::hit` happen before any store into the record). -/
theorem Sphere.hit_miss_id (s : Sphere) (r : Ray) (t : TRange)
    (rec : Intersection) (h : (s.hit r t rec).1 = false) :
    (s.hit r t rec).2 = rec := by
  unfold Sphere.hit at *
  dsimp only at h ⊢
  split_ifs at h ⊢ <;> simp_all

/-- A `HittableList::hit` call in which no child reports a hit leaves the
record exactly as it was. -/
theorem hitList_miss_id (objs : List Sphere) (r : Ray) (t : TRange)
    (rec : Intersection) (h : (hitList objs r t rec).1 = false) :
    (hitList objs r t rec).2 = rec := by
  induction objs generalizing t rec with
  | nil => rfl
  | cons o rest ih =>
    rcases ho : o.hit r t rec with ⟨b, rec₁⟩
    unfold hitList at h ⊢
    rw [ho] at h ⊢
    cases b with
    | true => simp at h
    | false =>
      simp only [Bool.false_eq_true, if_false] at h ⊢
      have hrec : rec₁ = rec := by
        have h₂ := Sphere.hit_miss_id o r t rec (by rw [ho])
        rw [ho] at h₂
        exact h₂
      subst hrec
      exact ih t _ h

/-- On a successful `Sphere::hit` the populated record's front-face flag is
set exactly when the ray direction and the geometric outward normal
`(position - center)/radius` have negative dot product, and the stored
normal never points with the ray direction. -/
theorem Sphere.hit_true_spec (s : Sphere) (r : Ray) (t : TRange)
    (rec rec' : Intersection) (h : s.hit r t rec = (true, rec')) :
    (rec'.front_face = true ↔
      dot r.dir ((rec'.position - s.center).sdiv s.radius) < 0) ∧
    dot r.dir rec'.norm ≤ 0 := by
  unfold Sphere.hit at h
  dsimp only at h
  split_ifs at h with h₁ h₂ h₃
  · simp at h
  · simp at h
  · simp only [Prod.mk.injEq, true_and] at h
    subst h
    unfold Intersection.set_face_normal
    dsimp only
    split_ifs with hf
    · exact ⟨iff_of_true rfl hf, hf.le⟩
    · refine ⟨iff_of_false (by simp) hf, ?_⟩
      rw [Vec3.dot_neg_right]
      exact neg_nonpos.mpr (not_lt.mp hf)
  · simp only [Prod.mk.injEq, true_and] at h
    subst h
    unfold Intersection.set_face_normal
    dsimp only
    split_ifs with hf
    · exact ⟨iff_of_true rfl hf, hf.le⟩
    · refine ⟨iff_of_false (by simp) hf, ?_⟩
      rw [Vec3.dot_neg_right]
      exact neg_nonpos.mpr (not_lt.mp hf)

/-- On a successful `HittableList::hit` the final record's stored normal
never points with the ray direction (it was populated by some child
sphere's hit). -/
theorem hitList_true_norm (objs : List Sphere) (r : Ray) (t : TRange)
    (rec rec' : Intersection) (h : hitList objs r t rec = (true, rec')) :
    dot r.dir rec'.norm ≤ 0 := by
  induction objs generalizing t rec with
  | nil => simp [hitList] at h
  | cons o rest ih =>
    rcases ho : o.hit r t rec with ⟨b, rec₁⟩
    unfold hitList at h
    rw [ho] at h
    cases b with
    | false =>
      simp only [Bool.false_eq_true, if_false] at h
      exact ih t rec₁ h
    | true =>
      simp only [if_true] at h
      rcases hrest : hitList rest r ⟨t.start, (rec₁.time : EReal)⟩ rec₁ with
        ⟨b₂, rec₂⟩
      rw [hrest] at h
      simp only [Prod.mk.injEq, true_and] at h
      subst h
      cases b₂ with
      | true => exact ih _ rec₁ hrest
      | false =>
        have hid := hitList_miss_id rest r ⟨t.start, (rec₁.time : EReal)⟩
          rec₁ (by rw [hrest])
        rw [hrest] at hid
        dsimp only at hid
        rw [hid]
        exact (Sphere.hit_true_spec o r t rec rec₁ ho).2

/-! ### Claim theorems -/

/-- Claim C1 (evaluation at the failing width): for image width 37 the ten
column stripes of width 37/10 = 3 cover exactly the columns below 30; every
column in [30, 37) belongs to no stripe (those columns are never rendered),
while distinct stripes never overlap.  This refutes the claimed gap-free
cover of [0, W) for W = 37. -/
theorem stripe_partition_drops_trailing_columns :
    (∀ x, x < 37 → (coveredByStripes 37 x ↔ x < 30)) ∧
    (∀ i, i < 10 → ¬ inStripe 37 i 30) ∧
    (∀ x, x < 37 → ∀ i, i < 10 → ∀ j, j < 10 →
      inStripe 37 i x → inStripe 37 j x → i = j) := by decide

theorem stripe_partition_drops_trailing_columns_wit :
    ¬ coveredByStripes 37 30 := fun hc =>
  absurd ((stripe_partition_drops_trailing_columns.1 30 (by decide)).mp hc)
    (by decide)

/-- Claim C7 counterexample: `Metal::new` only clamps from above, so a
negative fuzz input is stored unchanged and the stored fuzz is not in
[0, 1]. -/
theorem metal_new_keeps_negative_fuzz :
    Material.fuzzOf (Metal.new ⟨0, 0, 0⟩ (-1)) = -1 ∧
    Material.fuzzOf (Metal.new ⟨0, 0, 0⟩ (-1)) < 0 := by
  constructor <;> norm_num [Metal.new, Material.fuzzOf]

/-- Claim C7 (amended): the fuzz stored by `Metal::new` is always at most 1;
for every input above 1 it is exactly 1, and for every nonnegative input it
also stays nonnegative (hence lands in [0, 1]). -/
theorem metal_new_fuzz_clamped_above (albedo : Vec3) (f : ℝ) :
    Material.fuzzOf (Metal.new albedo f) ≤ 1 ∧
    (1 < f → Material.fuzzOf (Metal.new albedo f) = 1) ∧
    (0 ≤ f → 0 ≤ Material.fuzzOf (Metal.new albedo f)) := by
  simp only [Metal.new, Material.fuzzOf]
  split_ifs with h
  · exact ⟨le_of_lt h, fun h₁ => absurd h₁ (not_lt.mpr (le_of_lt h)),
      fun h₀ => h₀⟩
  · exact ⟨le_refl 1, fun _ => rfl, fun _ => zero_le_one⟩

theorem metal_new_fuzz_clamped_above_wit :
    Material.fuzzOf (Metal.new ⟨0, 0, 0⟩ 2) = 1 ∧
    0 ≤ Material.fuzzOf (Metal.new ⟨1, 1, 1⟩ (1 / 2)) :=
  ⟨(metal_new_fuzz_clamped_above ⟨0, 0, 0⟩ 2).2.1 (by norm_num),
   (metal_new_fuzz_clamped_above ⟨1, 1, 1⟩ (1 / 2)).2.2 (by norm_num)⟩

/-- Claim C10: when `Sphere::hit` returns false the caller's intersection
record is exactly as it was before the call, and a `HittableList::hit` in
which no child reports a hit likewise returns false with the record
unchanged. -/
theorem hit_miss_leaves_record_unchanged :
    (∀ (s : Sphere) (r : Ray) (t : TRange) (rec : Intersection),
        (s.hit r t rec).1 = false → (s.hit r t rec).2 = rec) ∧
    (∀ (objs : List Sphere) (r : Ray) (t : TRange) (rec : Intersection),
        (hitList objs r t rec).1 = false → (hitList objs r t rec).2 = rec) :=
  ⟨Sphere.hit_miss_id, hitList_miss_id⟩

theorem hit_miss_leaves_record_unchanged_wit :
    (Sphere.hit ⟨⟨0, 0, 10⟩, 1, .lambertian ⟨0, 0, 0⟩⟩
        ⟨⟨0, 0, 0⟩, ⟨1, 0, 0⟩⟩ ⟨0.001, ⊤⟩ Intersection.new).2 =
      Intersection.new :=
  hit_miss_leaves_record_unchanged.1 _ _ _ _
    (by norm_num [Sphere.hit, Vec3.dot, Vec3.sub_def])

/-- Claim C2: `Sphere::hit` returns false (record untouched) when the
discriminant `h*h - a*c` is negative; otherwise it accepts the smaller root
`(h - √disc)/a` if that lies strictly inside the open interval, else the
larger root `(h + √disc)/a` if that does, else returns false; on acceptance
the record's time is the accepted root, its position is `ray.at(time)`, its
material is the sphere's, and its normal is `(position - center)/radius` up
to the subsequent face orientation (which can only negate it). -/
theorem sphere_hit_root_policy (s : Sphere) (r : Ray) (t : TRange)
    (rec : Intersection) (a hh c disc root₁ root₂ : ℝ)
    (ha : a = dot r.dir r.dir)
    (hhh : hh = dot r.dir (s.center - r.orig))
    (hc : c = dot (s.center - r.orig) (s.center - r.orig) -
      s.radius * s.radius)
    (hdisc : disc = hh * hh - a * c)
    (hr₁ : root₁ = (hh - Real.sqrt disc) / a)
    (hr₂ : root₂ = (hh + Real.sqrt disc) / a) :
    (disc < 0 → s.hit r t rec = (false, rec)) ∧
    (0 ≤ disc → t.insideOpen root₁ →
      (s.hit r t rec).1 = true ∧
      (s.hit r t rec).2.time = root₁ ∧
      (s.hit r t rec).2.position = r.at root₁ ∧
      (s.hit r t rec).2.mat = s.mat ∧
      ((s.hit r t rec).2.norm = (r.at root₁ - s.center).sdiv s.radius ∨
       (s.hit r t rec).2.norm = -((r.at root₁ - s.center).sdiv s.radius))) ∧
    (0 ≤ disc → ¬ t.insideOpen root₁ → t.insideOpen root₂ →
      (s.hit r t rec).1 = true ∧
      (s.hit r t rec).2.time = root₂ ∧
      (s.hit r t rec).2.position = r.at root₂ ∧
      (s.hit r t rec).2.mat = s.mat ∧
      ((s.hit r t rec).2.norm = (r.at root₂ - s.center).sdiv s.radius ∨
       (s.hit r t rec).2.norm = -((r.at root₂ - s.center).sdiv s.radius))) ∧
    (0 ≤ disc → ¬ t.insideOpen root₁ → ¬ t.insideOpen root₂ →
      s.hit r t rec = (false, rec)) := by
  subst ha hhh hc hdisc hr₁ hr₂
  unfold Sphere.hit Intersection.set_face_normal TRange.insideOpen
  dsimp only
  refine ⟨fun hlt => ?_, fun hge hin => ?_, fun hge hout hin => ?_,
    fun hge hout₁ hout₂ => ?_⟩
  · rw [if_pos hlt]
  · rw [if_neg (not_lt.mpr hge),
      if_neg (by push_neg; exact ⟨hin.1, hin.2⟩)]
    split_ifs <;> simp
  · push_neg at hout
    rw [if_neg (not_lt.mpr hge)]
    rw [if_pos (by by_contra hcon; push_neg at hcon
                   exact absurd hcon.2 (not_lt.mpr (hout hcon.1)))]
    rw [if_neg (by push_neg; exact ⟨hin.1, hin.2⟩)]
    split_ifs <;> simp
  · push_neg at hout₁ hout₂
    rw [if_neg (not_lt.mpr hge)]
    rw [if_pos (by by_contra hcon; push_neg at hcon
                   exact absurd hcon.2 (not_lt.mpr (hout₁ hcon.1)))]
    rw [if_pos (by by_contra hcon; push_neg at hcon
                   exact absurd hcon.2 (not_lt.mpr (hout₂ hcon.1)))]

theorem sphere_hit_root_policy_wit :
    (Sphere.hit ⟨⟨0, 0, 0⟩, 1, .lambertian ⟨0, 0, 0⟩⟩
        ⟨⟨0, 0, -2⟩, ⟨0, 0, 1⟩⟩ ⟨0.001, ⊤⟩ Intersection.new).2.time = 1 :=
  ((sphere_hit_root_policy _ _ _ _ 1 2 3 1 1 3
      (by norm_num [Vec3.dot]) (by norm_num [Vec3.dot])
      (by norm_num [Vec3.dot]) (by norm_num)
      (by norm_num [Real.sqrt_one]) (by norm_num [Real.sqrt_one])).2.1
    (by norm_num)
    (by unfold TRange.insideOpen
        exact ⟨by norm_num, EReal.coe_lt_top 1⟩)).2.1

/-- Claim C4 counterexample: a ray starting at the sphere's center with the
non-unit direction (2,0,0) hits the unit sphere at time 1/2, not at the
radius 1. -/
theorem sphere_hit_center_time_not_radius :
    (Sphere.hit ⟨⟨0, 0, 0⟩, 1, .lambertian ⟨0, 0, 0⟩⟩
        ⟨⟨0, 0, 0⟩, ⟨2, 0, 0⟩⟩ ⟨0.001, ⊤⟩ Intersection.new).1 = true ∧
    (Sphere.hit ⟨⟨0, 0, 0⟩, 1, .lambertian ⟨0, 0, 0⟩⟩
        ⟨⟨0, 0, 0⟩, ⟨2, 0, 0⟩⟩ ⟨0.001, ⊤⟩ Intersection.new).2.time = 1 / 2 ∧
    (1 / 2 : ℝ) ≠ 1 := by
  have h4 : Real.sqrt 4 = 2 := by
    rw [show (4 : ℝ) = 2 ^ 2 by norm_num, Real.sqrt_sq (by norm_num : (0:ℝ) ≤ 2)]
  unfold Sphere.hit Intersection.set_face_normal
  norm_num [Vec3.dot, h4, EReal.coe_lt_top, top_le_iff, EReal.coe_ne_top]
  split_ifs <;> rfl

/-- Claim C4 (amended): for a ray whose origin is the sphere's center, a
positive radius and a nonzero direction, with a valid interval starting at a
nonnegative time and strictly containing `radius / |direction|`, the hit is
reported at time `radius / |direction|` (which equals the radius exactly
when the direction has unit length). -/
theorem sphere_hit_center_ray (s : Sphere) (r : Ray) (t : TRange)
    (rec : Intersection)
    (horig : r.orig = s.center) (hrad : 0 < s.radius)
    (hdir : 0 < Vec3.magnitude2 r.dir)
    (hstart : 0 ≤ t.start)
    (hin : t.insideOpen (s.radius / Vec3.magnitude r.dir)) :
    (s.hit r t rec).1 = true ∧
    (s.hit r t rec).2.time = s.radius / Vec3.magnitude r.dir := by
  have hzero : s.center - r.orig = (⟨0, 0, 0⟩ : Vec3) := by
    rw [horig]; ext <;> simp
  have ha : 0 < dot r.dir r.dir := hdir
  have hsq : Real.sqrt (dot r.dir r.dir) > 0 := Real.sqrt_pos.mpr ha
  have hmag : Vec3.magnitude r.dir = Real.sqrt (dot r.dir r.dir) := rfl
  have hsqrtd :
      Real.sqrt (0 * 0 - dot r.dir r.dir *
        (dot (⟨0, 0, 0⟩ : Vec3) (⟨0, 0, 0⟩ : Vec3) - s.radius * s.radius)) =
      Real.sqrt (dot r.dir r.dir) * s.radius := by
    have : (0 * 0 - dot r.dir r.dir *
        (dot (⟨0, 0, 0⟩ : Vec3) (⟨0, 0, 0⟩ : Vec3) - s.radius * s.radius)) =
        dot r.dir r.dir * (s.radius * s.radius) := by
      simp [Vec3.dot]
    rw [this, Real.sqrt_mul ha.le, Real.sqrt_mul_self hrad.le]
  have hroot₂ : (0 + Real.sqrt (dot r.dir r.dir) * s.radius) /
      dot r.dir r.dir = s.radius / Real.sqrt (dot r.dir r.dir) := by
    rw [zero_add, div_eq_div_iff (ne_of_gt ha) (ne_of_gt hsq)]
    linear_combination s.radius * Real.mul_self_sqrt ha.le
  have hroot₁ : (0 - Real.sqrt (dot r.dir r.dir) * s.radius) /
      dot r.dir r.dir < 0 := by
    rw [zero_sub]
    exact div_neg_of_neg_of_pos (neg_neg_of_pos (by positivity)) ha
  unfold Sphere.hit Intersection.set_face_normal
  dsimp only
  rw [hzero]
  have hdot0 : dot r.dir (⟨0, 0, 0⟩ : Vec3) = 0 := by simp [Vec3.dot]
  rw [hdot0, hsqrtd, hroot₂]
  have hdiscge : ¬ (0 * 0 - dot r.dir r.dir *
      (dot (⟨0, 0, 0⟩ : Vec3) (⟨0, 0, 0⟩ : Vec3) - s.radius * s.radius) < 0) := by
    simp only [Vec3.dot]
    push_neg
    nlinarith
  rw [if_neg hdiscge]
  rw [if_pos (Or.inl (le_of_lt (lt_of_lt_of_le hroot₁ (by linarith)))) ]
  rw [if_neg (by
    push_neg
    rw [hmag] at hin
    exact ⟨hin.1, hin.2⟩)]
  rw [hmag]
  split_ifs <;> simp

/-- Claim C5: after a successful hit populates the record, the front-face
flag is true exactly when the ray direction and the geometric outward
normal `(position - center)/radius` have strictly negative dot product, and
the stored normal always satisfies `dot(rayDir, storedNormal) ≤ 0`, both
for a single sphere's hit and for a hittable list's hit. -/
theorem face_normal_orientation :
    (∀ (s : Sphere) (r : Ray) (t : TRange) (rec rec' : Intersection),
      s.hit r t rec = (true, rec') →
      ((rec'.front_face = true ↔
        dot r.dir ((rec'.position - s.center).sdiv s.radius) < 0) ∧
       dot r.dir rec'.norm ≤ 0)) ∧
    (∀ (objs : List Sphere) (r : Ray) (t : TRange) (rec rec' : Intersection),
      hitList objs r t rec = (true, rec') → dot r.dir rec'.norm ≤ 0) :=
  ⟨Sphere.hit_true_spec, hitList_true_norm⟩

theorem face_normal_orientation_wit :
    dot (⟨0, 0, 1⟩ : Vec3)
      (Intersection.mk 1 ⟨0, 0, -1⟩ ⟨0, 0, -1⟩ (.lambertian ⟨0, 0, 0⟩)
        true).norm ≤ 0 :=
  (face_normal_orientation.1 ⟨⟨0, 0, 0⟩, 1, .lambertian ⟨0, 0, 0⟩⟩
    ⟨⟨0, 0, -2⟩, ⟨0, 0, 1⟩⟩ ⟨0.001, ⊤⟩ Intersection.new _
    (by unfold Sphere.hit Intersection.set_face_normal
        norm_num [Vec3.dot, Real.sqrt_one, Ray.at, Vec3.sdiv,
          EReal.coe_lt_top, top_le_iff, EReal.coe_ne_top, ereal_one_ne_top,
          Intersection.new])).2

theorem sphere_hit_center_ray_wit :
    (Sphere.hit ⟨⟨0, 0, 0⟩, 1, .lambertian ⟨0, 0, 0⟩⟩
        ⟨⟨0, 0, 0⟩, ⟨0, 0, 1⟩⟩ ⟨0.001, ⊤⟩ Intersection.new).2.time = 1 := by
  have hm : Vec3.magnitude (⟨0, 0, 1⟩ : Vec3) = 1 := by
    rw [show Vec3.magnitude (⟨0, 0, 1⟩ : Vec3) =
        Real.sqrt (dot (⟨0, 0, 1⟩ : Vec3) ⟨0, 0, 1⟩) from rfl]
    norm_num [Vec3.dot, Real.sqrt_one]
  have h := (sphere_hit_center_ray
    ⟨⟨0, 0, 0⟩, 1, .lambertian ⟨0, 0, 0⟩⟩ ⟨⟨0, 0, 0⟩, ⟨0, 0, 1⟩⟩
    ⟨0.001, ⊤⟩ Intersection.new rfl (by norm_num)
    (by norm_num [Vec3.magnitude2, Vec3.dot]) (by norm_num)
    (by unfold TRange.insideOpen
        rw [hm]
        exact ⟨by norm_num, EReal.coe_lt_top _⟩)).2
  rw [h, hm]
  norm_num

/-- Claim C6 (evaluation at the failing input): the rejection loop of
`random_unit_vec` accepts a candidate exactly when its squared magnitude is
below one; it never requires a positive magnitude.  With the three uniform
draws all exactly 0.5 the candidate is the zero vector: the code accepts it
and normalizes it, yielding a vector of magnitude 0 (in f64 arithmetic a
division by zero producing NaN components), not a unit vector, whereas the
claimed acceptance test rejects it. -/
theorem random_unit_vec_accepts_zero_candidate :
    ruvCandidate (1 / 2) (1 / 2) (1 / 2) = ⟨0, 0, 0⟩ ∧
    ruvStep ⟨0, 0, 0⟩ = some (Vec3.normalize ⟨0, 0, 0⟩) ∧
    Vec3.magnitude (Vec3.normalize ⟨0, 0, 0⟩) = 0 ∧
    ¬ (Vec3.magnitude2 (⟨0, 0, 0⟩ : Vec3) < 1 ∧
       0 < Vec3.magnitude (⟨0, 0, 0⟩ : Vec3)) := by
  refine ⟨by unfold ruvCandidate; norm_num, ?_, ?_, ?_⟩
  · unfold ruvStep
    rw [if_pos (by norm_num [Vec3.magnitude2, Vec3.dot])]
  · norm_num [Vec3.normalize, Vec3.magnitude, Vec3.magnitude2, Vec3.dot,
      Real.sqrt_zero]
  · rintro ⟨-, h⟩
    rw [show Vec3.magnitude ⟨0, 0, 0⟩ = 0 by
      norm_num [Vec3.magnitude, Vec3.magnitude2, Vec3.dot, Real.sqrt_zero]]
      at h
    exact lt_irrefl 0 h

/-- Claim C8: `Lambertian::scatter` always returns Some; the attenuation is
the fixed albedo, the scattered ray starts at the hit position, and its
direction is the surface normal plus the drawn unit vector, replaced by the
bare normal when all components of that sum are below 1e-8 in magnitude. -/
theorem lambertian_scatter_total (albedo : Vec3) (r_in : Ray)
    (rec : Intersection) (g : Rand) :
    ∃ ray g₁,
      Material.scatter (.lambertian albedo) r_in rec g =
        (some (ray, albedo), g₁) ∧
      ray.orig = rec.position ∧
      ray.dir = (if vec_near_zero (rec.norm + g.unit_vecs g.uidx)
        then rec.norm else rec.norm + g.unit_vecs g.uidx) :=
  ⟨_, _, rfl, rfl, rfl⟩

/-- Claim C9: with remaining depth > 0 and a ray that hits nothing in the
scene within (0.001, ∞), `ray_color` returns the vertical sky gradient
(1-α)·(1,1,1) + α·(0.5,0.7,1.0) with α = 0.5(y+1) for y the normalized
direction's y-component; in particular pure white at y = -1 and exactly
(0.5,0.7,1.0) at y = +1. -/
theorem ray_color_sky_gradient (r : Ray) (depth : ℕ) (world : List Sphere)
    (g : Rand) (hd : depth ≠ 0)
    (hmiss : (hitList world r ⟨0.001, (⊤ : EReal)⟩ Intersection.new).1 =
      false) :
    (rayColor r depth world g).1 =
      (1 - 0.5 * (r.dir.normalize.y + 1)) • (⟨1, 1, 1⟩ : Vec3) +
        (0.5 * (r.dir.normalize.y + 1)) • (⟨0.5, 0.7, 1.0⟩ : Vec3) ∧
    (r.dir.normalize.y = -1 → (rayColor r depth world g).1 = ⟨1, 1, 1⟩) ∧
    (r.dir.normalize.y = 1 →
      (rayColor r depth world g).1 = ⟨0.5, 0.7, 1.0⟩) := by
  obtain ⟨d, rfl⟩ : ∃ d, depth = d + 1 :=
    ⟨depth - 1, (Nat.succ_pred_eq_of_pos (Nat.pos_of_ne_zero hd)).symm⟩
  have hgrad : (rayColor r (d + 1) world g).1 =
      (1 - 0.5 * (r.dir.normalize.y + 1)) • (⟨1, 1, 1⟩ : Vec3) +
        (0.5 * (r.dir.normalize.y + 1)) • (⟨0.5, 0.7, 1.0⟩ : Vec3) := by
    unfold rayColor
    rw [if_neg (by rw [hmiss]; exact Bool.false_ne_true)]
  refine ⟨hgrad, fun hy => ?_, fun hy => ?_⟩
  · rw [hgrad, hy]
    ext <;> norm_num
  · rw [hgrad, hy]
    ext <;> norm_num

theorem ray_color_sky_gradient_wit :
    (rayColor ⟨⟨0, 0, 0⟩, ⟨0, 1, 0⟩⟩ 1 []
      ⟨fun _ => ⟨0, 0, 0⟩, fun _ => 0, 0, 0⟩).1 = ⟨0.5, 0.7, 1.0⟩ :=
  (ray_color_sky_gradient ⟨⟨0, 0, 0⟩, ⟨0, 1, 0⟩⟩ 1 []
      ⟨fun _ => ⟨0, 0, 0⟩, fun _ => 0, 0, 0⟩ (by norm_num) rfl).2.2
    (by norm_num [Vec3.normalize, Vec3.magnitude, Vec3.magnitude2, Vec3.dot,
      Real.sqrt_one])

/-- Claim C3 counterexample: even with refractive index 1 the Schlick
reflectance is `(1-cosθ)^5 > 0` away from normal incidence, so a random
draw below it makes the dielectric reflect.  For the incoming direction
(3,-4,0) against the unit normal (0,1,0) and a zero uniform draw, the
scattered direction is (3/5, 4/5, 0), which is no positive multiple of the
incoming direction. -/
theorem dielectric_unity_ior_not_always_colinear :
    ∃ ray att g₁,
      Material.scatter (.dielectric 1) ⟨⟨0, 0, 0⟩, ⟨3, -4, 0⟩⟩
        ⟨0, ⟨0, 0, 0⟩, ⟨0, 1, 0⟩, .dielectric 1, true⟩
        ⟨fun _ => ⟨0, 0, 0⟩, fun _ => 0, 0, 0⟩ = (some (ray, att), g₁) ∧
      ray.dir = ⟨3 / 5, 4 / 5, 0⟩ ∧
      ¬ ∃ c : ℝ, 0 < c ∧ ray.dir = c • (⟨3, -4, 0⟩ : Vec3) := by
  have hmag : Vec3.magnitude ⟨3, -4, 0⟩ = 5 := by
    unfold Vec3.magnitude Vec3.magnitude2 Vec3.dot
    rw [show ((3 : ℝ) * 3 + (-4) * (-4) + 0 * 0) = 5 ^ 2 by norm_num]
    exact Real.sqrt_sq (by norm_num)
  have hunit : Vec3.normalize ⟨3, -4, 0⟩ = ⟨3 / 5, -(4 / 5), 0⟩ := by
    unfold Vec3.normalize
    rw [hmag]
    ext <;> norm_num
  have hrefl : reflect ⟨3 / 5, -(4 / 5), 0⟩ ⟨0, 1, 0⟩ = ⟨3 / 5, 4 / 5, 0⟩ := by
    unfold reflect Vec3.dot
    ext <;> norm_num
  have hsin : Real.sqrt (1 - (4 / 5 : ℝ) ^ 2) = 3 / 5 := by
    rw [show (1 - (4 / 5 : ℝ) ^ 2) = (3 / 5) ^ 2 by norm_num]
    exact Real.sqrt_sq (by norm_num)
  have h9 : Real.sqrt 9 = 3 := by
    rw [show (9 : ℝ) = 3 ^ 2 by norm_num]
    exact Real.sqrt_sq (by norm_num)
  have h25 : Real.sqrt 25 = 5 := by
    rw [show (25 : ℝ) = 5 ^ 2 by norm_num]
    exact Real.sqrt_sq (by norm_num)
  refine ⟨⟨⟨0, 0, 0⟩, ⟨3 / 5, 4 / 5, 0⟩⟩, ⟨1, 1, 1⟩,
    ⟨fun _ => ⟨0, 0, 0⟩, fun _ => 0, 0, 1⟩, ?_, rfl, ?_⟩
  · unfold Material.scatter
    dsimp only
    rw [hunit]
    norm_num [Vec3.dot, min_def, reflectance, hsin, h9, h25, hrefl,
      Rand.random_double]
  · rintro ⟨c, hc, heq⟩
    simp only [Vec3.smul_def, Vec3.mk.injEq] at heq
    obtain ⟨h₁, h₂, -⟩ := heq
    linarith

/-- With refraction ratio 1, Snell refraction of a unit direction against a
unit normal oriented against it is the identity. -/
theorem refract_ratio_one_id (u n : Vec3)
    (hu : Vec3.magnitude2 u = 1) (hn : Vec3.magnitude2 n = 1)
    (hd : dot u n ≤ 0) (hle : dot (-u) n ≤ 1) :
    refract u n 1 = u := by
  have hc : 0 ≤ dot (-u) n := by
    rw [Vec3.dot_neg_left]
    linarith
  have e : dot u n = -(dot (-u) n) := by
    rw [Vec3.dot_neg_left]
    ring
  unfold refract
  dsimp only
  rw [min_eq_right hle, Vec3.one_smul_self, Vec3.magnitude2_add_smul, hu, hn, e]
  have harg : (1 - (1 + 2 * dot (-u) n * -(dot (-u) n) +
      (dot (-u) n) ^ 2 * 1)) = (dot (-u) n) ^ 2 := by ring
  rw [harg, abs_of_nonneg (sq_nonneg _), Real.sqrt_sq hc]
  ext <;> simp

/-- Claim C3 (amended): for a dielectric with refractive index 1 and a hit
record whose normal is unit length and oriented against the incoming ray,
whenever the fresh uniform draw is at least the Schlick reflectance
`(1-cosθ)^5` — i.e. the refraction branch is taken — the scattered ray's
direction is exactly the normalized incoming direction, a positive scalar
multiple of the incoming direction.  (When the draw falls below the Schlick
reflectance the ray reflects instead and need not be colinear.) -/
theorem dielectric_unity_ior_refraction_colinear (r_in : Ray)
    (rec : Intersection) (g : Rand)
    (hn : Vec3.magnitude2 rec.norm = 1)
    (hdot : dot r_in.dir rec.norm ≤ 0)
    (hdir : 0 < Vec3.magnitude2 r_in.dir)
    (hdraw : reflectance (min (dot (-(Vec3.normalize r_in.dir)) rec.norm) 1)
      1 ≤ g.doubles g.didx) :
    ∃ g₁, Material.scatter (.dielectric 1) r_in rec g =
      (some (⟨rec.position, Vec3.normalize r_in.dir⟩, ⟨1, 1, 1⟩), g₁) ∧
    ∃ c : ℝ, 0 < c ∧ Vec3.normalize r_in.dir = c • r_in.dir := by
  have hm : 0 < Vec3.magnitude r_in.dir := Real.sqrt_pos.mpr hdir
  have hu : Vec3.magnitude2 (Vec3.normalize r_in.dir) = 1 :=
    Vec3.magnitude2_normalize _ hdir
  have hudot : dot (Vec3.normalize r_in.dir) rec.norm ≤ 0 := by
    unfold Vec3.normalize
    rw [Vec3.dot_smul_left]
    exact mul_nonpos_of_nonneg_of_nonpos
      (div_nonneg zero_le_one hm.le) hdot
  have hcsq := Vec3.dot_sq_le (-(Vec3.normalize r_in.dir)) rec.norm
  rw [Vec3.magnitude2_neg, hu, hn] at hcsq
  have hle1 : dot (-(Vec3.normalize r_in.dir)) rec.norm ≤ 1 := by nlinarith
  have hge0 : 0 ≤ dot (-(Vec3.normalize r_in.dir)) rec.norm := by
    rw [Vec3.dot_neg_left]
    linarith
  have hmin : min (dot (-(Vec3.normalize r_in.dir)) rec.norm) 1 =
      dot (-(Vec3.normalize r_in.dir)) rec.norm := min_eq_left hle1
  have hri : (if rec.front_face = true then 1 / (1 : ℝ) else 1) = 1 := by
    split_ifs <;> norm_num
  have hsin :
      Real.sqrt (1 - (dot (-(Vec3.normalize r_in.dir)) rec.norm) ^ 2) ≤ 1 :=
    Real.sqrt_le_one.mpr (by nlinarith)
  rw [hmin] at hdraw
  have hrefr : Material.scatter (.dielectric 1) r_in rec g =
      (some (⟨rec.position, Vec3.normalize r_in.dir⟩, ⟨1, 1, 1⟩),
        { g with didx := g.didx + 1 }) := by
    unfold Material.scatter Rand.random_double
    dsimp only
    rw [hri, hmin]
    rw [if_neg (by rw [one_mul]; exact not_lt.mpr hsin)]
    rw [if_neg (not_lt.mpr hdraw)]
    rw [refract_ratio_one_id _ _ hu hn hudot hle1]
  exact ⟨{ g with didx := g.didx + 1 }, hrefr,
    1 / Vec3.magnitude r_in.dir, one_div_pos.mpr hm, rfl⟩

theorem dielectric_unity_ior_refraction_colinear_wit :
    ∃ g₁, Material.scatter (.dielectric 1) ⟨⟨0, 0, 0⟩, ⟨0, -1, 0⟩⟩
        ⟨0, ⟨0, 0, 0⟩, ⟨0, 1, 0⟩, .dielectric 1, true⟩
        ⟨fun _ => ⟨0, 0, 0⟩, fun _ => 0, 0, 0⟩ =
      (some (⟨⟨0, 0, 0⟩, Vec3.normalize ⟨0, -1, 0⟩⟩, ⟨1, 1, 1⟩), g₁) ∧
    ∃ c : ℝ, 0 < c ∧ Vec3.normalize ⟨0, -1, 0⟩ = c • (⟨0, -1, 0⟩ : Vec3) := by
  have hnorm : Vec3.normalize ⟨0, -1, 0⟩ = ⟨0, -1, 0⟩ := by
    unfold Vec3.normalize Vec3.magnitude Vec3.magnitude2 Vec3.dot
    norm_num
  refine dielectric_unity_ior_refraction_colinear ⟨⟨0, 0, 0⟩, ⟨0, -1, 0⟩⟩
    ⟨0, ⟨0, 0, 0⟩, ⟨0, 1, 0⟩, .dielectric 1, true⟩
    ⟨fun _ => ⟨0, 0, 0⟩, fun _ => 0, 0, 0⟩
    (by norm_num [Vec3.magnitude2, Vec3.dot])
    (by norm_num [Vec3.dot])
    (by norm_num [Vec3.magnitude2, Vec3.dot])
    (by rw [hnorm]; norm_num [Vec3.dot, reflectance])

end RT
